import Mathlib

/-
Shallow embedding of `src/price-server/src/provider/crypto/Huobi.ts`
(the Huobi streaming market-data adapter of oracle-feeder).

Conventions of the embedding:
* Decimal values (the `num` / BigNumber wrapper of `lib/num`) are modelled as `Rat`,
  an arbitrary-precision exact type, matching the spec's "arbitrary-precision decimals".
* The shared price/trade store (`setTrades` / `getTrades` / `setPrice` / `getPrice`,
  inherited from `provider/base`, not under `src/`) is modelled from the spec, §6:
  a process-wide map keyed by symbol with last-write-wins semantics.  It is
  represented as an association list where a write conses a fresh entry and a
  read takes the first matching entry.
* JavaScript exceptions are modelled with `Except`: `Except.error s` means the
  operation threw, leaving the mutations performed before the throw (`s`) in place.
* JavaScript truthiness tests on message fields are modelled explicitly
  (`pingTruthy`, `subbedTruthy`, `chMarket`).
-/

namespace Huobi

/-- A canonical trade record: one aggregation bucket.
Fields follow `provider/base`'s `Trades` element as used in `Huobi.ts`:
`{ price, volume, timestamp }` with `timestamp` in milliseconds. -/
structure Trade where
  timestamp : Int
  price : Rat
  volume : Rat
deriving DecidableEq

/-- Modelled from the spec: the shared price/trade store of §6
(`setTrades(symbol, window)`, `getTrades(symbol)`, `setPrice(symbol, price)`,
`getPrice(symbol)`), keyed by symbol string, last-write-wins.  The base-class
code implementing it is not under `src/`.  A write conses an entry; a read
returns the most recent entry for the key. -/
structure Store where
  tradesMap : List (String × List Trade)
  pricesMap : List (String × Rat)
deriving DecidableEq

/-- Modelled from the spec: `setTrades(symbol, window)` (§6), last-write-wins. -/
def setTrades (store : Store) (symbol : String) (trades : List Trade) : Store :=
  { store with tradesMap := (symbol, trades) :: store.tradesMap }

/-- Modelled from the spec: `getTrades(symbol) -> window` (§6). -/
def getTrades (store : Store) (symbol : String) : Option (List Trade) :=
  (store.tradesMap.find? (fun e => e.1 == symbol)).map (fun e => e.2)

/-- Modelled from the spec: `setPrice(symbol, price)` (§6), last-write-wins. -/
def setPrice (store : Store) (symbol : String) (price : Rat) : Store :=
  { store with pricesMap := (symbol, price) :: store.pricesMap }

/-- Modelled from the spec: `getPrice(symbol) -> price` (§6). -/
def getPrice (store : Store) (symbol : String) : Option Rat :=
  (store.pricesMap.find? (fun e => e.1 == symbol)).map (fun e => e.2)

/-- The adapter state: its configured symbol list, the shared store it writes
through, and the private liveness flag `isUpdated` (`Huobi.ts` line 31,
initialized `false`). -/
structure HuobiState where
  symbols : List String
  store : Store
  isUpdated : Bool
deriving DecidableEq

/-- `num` from `lib/num` (not under `src/`): wraps a value as an
arbitrary-precision decimal.  On already-exact rationals it is the identity. -/
def num (x : Rat) : Rat := x

/-- First-occurrence replacement on character lists, the semantics of
JavaScript `String.prototype.replace(searchString, replacement)`. -/
def replaceFirstChars (pat rep : List Char) : List Char → List Char
  | [] => []
  | c :: cs =>
    if List.isPrefixOf pat (c :: cs) then rep ++ List.drop pat.length (c :: cs)
    else c :: replaceFirstChars pat rep cs

/-- JavaScript `s.replace(pat, rep)` for string patterns: replaces only the
first occurrence. -/
def replaceFirst (s pat rep : String) : String :=
  String.mk (replaceFirstChars pat.data rep.data s.data)

/-- JavaScript `s.toUpperCase()` restricted to the ASCII symbol names used by
the adapter. -/
def toUpperStr (s : String) : String :=
  String.mk (s.data.map Char.toUpper)

/-- Modelled from the spec: `getBaseCurrency` of `lib/currency` (not under
`src/`).  Per §3 a Symbol is the pair BASE/QUOTE; the base currency is the part
before the first slash. -/
def getBaseCurrency (symbol : String) : String :=
  String.mk (symbol.data.takeWhile (fun c => c != '/'))

/-- Modelled from the spec: `getQuoteCurrency` of `lib/currency` (not under
`src/`).  Per §3 the quote currency is the component after the first slash. -/
def getQuoteCurrency (symbol : String) : String :=
  String.mk ((((symbol.data.dropWhile (fun c => c != '/')).drop 1)).takeWhile (fun c => c != '/'))

/-- The `tick` field of a Huobi candlestick stream message
(`CandlestickStreamData`, `Huobi.ts` lines 17-28), restricted to the fields
`onData` reads: `id` (epoch seconds), `close`, `amount`. -/
structure Tick where
  id : Int
  close : Rat
  amount : Rat
deriving DecidableEq

/-- A decoded stream message as `onData` inspects it: the dynamically-typed
JSON object, with the fields the handler tests.  `none` models an absent
field. -/
structure StreamMsg where
  ping : Option Int
  subbed : Option String
  status : Option String
  ch : Option String
  tick : Option Tick
deriving DecidableEq

/-- JavaScript truthiness of `streamData.ping`: present and non-zero. -/
def pingTruthy (msg : StreamMsg) : Bool :=
  match msg.ping with
  | some n => n != 0
  | none => false

/-- JavaScript truthiness of `streamData.subbed`: present and non-empty. -/
def subbedTruthy (msg : StreamMsg) : Bool :=
  match msg.subbed with
  | some s => s != ""
  | none => false

/-- The test `streamData.ch?.indexOf('market.') === 0` (`Huobi.ts` line 112):
the channel field is present and starts with `market.`. -/
def chMarket (msg : StreamMsg) : Bool :=
  match msg.ch with
  | some c => List.isPrefixOf "market.".data c.data
  | none => false

/-- Channel normalization of `Huobi.ts` line 115:
`ch.replace('market.', '').replace('.kline.1min', '').toUpperCase()`. -/
def chanOf (c : String) : String :=
  toUpperStr (replaceFirst (replaceFirst c "market." "") ".kline.1min" "")

/-- In-place update of the first window entry with the given timestamp
(`Huobi.ts` lines 126, 129-131: `trades.find(...)` followed by mutation of the
found element's `price` and `volume`). -/
def updateFirst (timestamp : Int) (price volume : Rat) : List Trade → List Trade
  | [] => []
  | t :: ts =>
    if t.timestamp = timestamp then { t with price := price, volume := volume } :: ts
    else t :: updateFirst timestamp price volume ts

/-- The window merge of `onData` (`Huobi.ts` lines 126-134): if a trade with
this timestamp exists, overwrite its price and volume in place, otherwise push
a new trade at the end. -/
def mergeTrade (trades : List Trade) (timestamp : Int) (price volume : Rat) : List Trade :=
  match trades.find? (fun t => t.timestamp == timestamp) with
  | some _ => updateFirst timestamp price volume trades
  | none => trades ++ [{ timestamp := timestamp, price := price, volume := volume }]

/-- `automadeTrades` (`Huobi.ts` lines 149-165): derive base/KRW trades from a
base/USDT window by dividing each price by the KRW/USD rate.

Modelled from the spec where the source is outside `src/`:
`fiatProvider.getPriceBy('KRW/USD')` is represented by the `rate` argument, and
per §4.5 a rate that is absent (not yet fetched) or zero is unavailable and
makes the guard `if (getQuoteCurrency(symbol) !== 'USDT' || !rate) return` skip
the synthesis.

`Except.error s` models the JavaScript `TypeError` thrown by
`calculatedTrades[calculatedTrades.length - 1].price` when the list is empty;
`s` is the store after the `setTrades` that precedes the throw. -/
def automadeTrades (store : Store) (rate : Option Rat) (symbol : String)
    (trades : List Trade) : Except Store Store :=
  match rate with
  | none => Except.ok store
  | some r =>
    if getQuoteCurrency symbol ≠ "USDT" ∨ r = 0 then Except.ok store
    else
      let convertedSymbol := getBaseCurrency symbol ++ "/KRW"
      let calculatedTrades := trades.map (fun trade =>
        { timestamp := trade.timestamp, price := trade.price / r, volume := trade.volume })
      let store1 := setTrades store convertedSymbol calculatedTrades
      match calculatedTrades.getLast? with
      | some t => Except.ok (setPrice store1 convertedSymbol t.price)
      | none => Except.error store1

/-- What a single `onData` call did. The `threw...` outcomes model the
exceptions escaping `onData` (caught by `onRawData`'s try/catch). -/
inductive DataOutcome where
  /-- A ping was answered with `{"pong": n}`. -/
  | pong (n : Int)
  /-- A subscription acknowledgement with status `ok` (only a commented-out log). -/
  | acked
  /-- A market message whose channel matches no configured symbol: silently dropped. -/
  | ignored
  /-- A market tick was merged into the window; prices and flag updated. -/
  | updated
  /-- `throw new Error(streamData)` for a subscription ack whose status is not `ok`. -/
  | threwSub
  /-- `throw new Error(streamData)` from the final `else`: unrecognized message. -/
  | threwUnknown
  /-- `TypeError` from `data.tick.id` when the `tick` field is absent. -/
  | threwTick
  /-- `TypeError` thrown inside `automadeTrades` on an empty trade list. -/
  | threwAutomade
deriving DecidableEq

/-- `onData` (`Huobi.ts` lines 104-146): the protocol state machine.  Returns
the successor adapter state together with what happened; for `threw...`
outcomes the state holds the mutations made before the throw. -/
def onData (st : HuobiState) (rate : Option Rat) (msg : StreamMsg) :
    HuobiState × DataOutcome :=
  if pingTruthy msg then
    (st, DataOutcome.pong (msg.ping.getD 0))
  else if subbedTruthy msg then
    if msg.status ≠ some "ok" then (st, DataOutcome.threwSub)
    else (st, DataOutcome.acked)
  else if chMarket msg then
    let ch := chanOf (msg.ch.getD "")
    match st.symbols.find? (fun s => replaceFirst s "/" "" == ch) with
    | none => (st, DataOutcome.ignored)
    | some symbol =>
      match msg.tick with
      | none => (st, DataOutcome.threwTick)
      | some tk =>
        let timestamp := tk.id * 1000
        let price := num tk.close
        let volume := num tk.amount
        let trades := (getTrades st.store symbol).getD []
        let trades1 := mergeTrade trades timestamp price volume
        let store1 := setPrice (setTrades st.store symbol trades1) symbol price
        match automadeTrades store1 rate symbol trades1 with
        | Except.ok s => ({ st with store := s, isUpdated := true }, DataOutcome.updated)
        | Except.error s => ({ st with store := s }, DataOutcome.threwAutomade)
  else
    (st, DataOutcome.threwUnknown)

/-- The result of decoding one raw transport frame, at the boundary `onRawData`
sees: `pako.inflate` either throws or yields text, and `JSON.parse` of that
text either throws or yields a structured message. -/
inductive FrameDecode where
  /-- `pako.inflate` throws (invalid compressed data). -/
  | inflateError
  /-- Decompression succeeded but `JSON.parse` of the text throws. -/
  | parseError (text : String)
  /-- Decompression and parsing succeeded. -/
  | parsed (msg : StreamMsg)
deriving DecidableEq

/-- Whether a `DataOutcome` is an exception escaping `onData`. -/
def DataOutcome.isThrow : DataOutcome → Bool
  | DataOutcome.threwSub => true
  | DataOutcome.threwUnknown => true
  | DataOutcome.threwTick => true
  | DataOutcome.threwAutomade => true
  | _ => false

/-- How one `onRawData` call ended. -/
inductive RawOutcome where
  /-- An exception escaped `onRawData` itself. -/
  | escaped
  /-- An exception was caught by the `try`/`catch` and passed to `errorHandler`;
  the frame was dropped and the call returned. -/
  | caught
  /-- `onData` completed without throwing. -/
  | completed (o : DataOutcome)
deriving DecidableEq

/-- `onRawData` (`Huobi.ts` lines 92-101).  Note the structure of the source:
`pako.inflate` runs on line 93 *outside* the `try`, so an inflate exception
escapes `onRawData`; `JSON.parse` and `onData` run inside the `try`, so their
exceptions are routed to `errorHandler` and the call returns. -/
def onRawData (st : HuobiState) (rate : Option Rat) (frame : FrameDecode) :
    HuobiState × RawOutcome :=
  match frame with
  | FrameDecode.inflateError => (st, RawOutcome.escaped)
  | FrameDecode.parseError _ => (st, RawOutcome.caught)
  | FrameDecode.parsed msg =>
    let r := onData st rate msg
    if (r.2).isThrow then (r.1, RawOutcome.caught) else (r.1, RawOutcome.completed r.2)

/-- One candle record of the Huobi kline REST response
(`response.data` rows, `Huobi.ts` lines 193-199): `id` in epoch seconds,
closing price `close`, base-currency volume `amount`, quote-currency value
`vol` (the field the zero-volume filter tests). -/
structure Candle where
  id : Int
  close : Rat
  amount : Rat
  vol : Rat
deriving DecidableEq

/-- The kline REST response as `fetchLatestTrades` validates it: a status
string plus `data`, which is `none` when not an array. -/
structure KlineResponse where
  status : String
  data : Option (List Candle)
deriving DecidableEq

/-- Stable ascending insertion (by timestamp) of one trade into a list. -/
def insertTrade (t : Trade) : List Trade → List Trade
  | [] => [t]
  | u :: us =>
    if t.timestamp < u.timestamp then t :: u :: us
    else u :: insertTrade t us

/-- The ascending sort `\x2esort((a, b) => a.timestamp - b.timestamp)` of
`Huobi.ts` line 200, as a stable insertion sort. -/
def sortTrades (l : List Trade) : List Trade :=
  l.foldl (fun acc t => insertTrade t acc) []

/-- The `size` parameter of the kline bootstrap request (`Huobi.ts` line 171). -/
def requestSize : Nat := 10

/-- The candle-to-trade mapping of `fetchLatestTrades` (`Huobi.ts` 195-199). -/
def candleToTrade (row : Candle) : Trade :=
  { price := num row.close, volume := num row.amount, timestamp := row.id * 1000 }

/-- `fetchLatestTrades` (`Huobi.ts` lines 167-201) after the HTTP exchange: the
argument is the JSON response (`none` when the request failed or returned an
empty body).  `Except.error ()` models the `throw new Error('invalid response
from Huobi')`.  On success: keep rows with `parseFloat(row.vol) > 0`, map to
trades with `timestamp = id * 1000`, and sort ascending by timestamp. -/
def fetchLatestTrades (response : Option KlineResponse) : Except Unit (List Trade) :=
  match response with
  | none => Except.error ()
  | some resp =>
    if resp.status ≠ "ok" then Except.error ()
    else
      match resp.data with
      | none => Except.error ()
      | some rows =>
        if rows.length < 1 then Except.error ()
        else
          Except.ok (sortTrades ((rows.filter (fun row => 0 < row.vol)).map candleToTrade))

/-- The per-symbol bootstrap step of `initialize` (`Huobi.ts` lines 36-53):
clear the window, fetch candles, and on a non-empty result store the window,
set the latest price to the last trade's price, and synthesize base/KRW.  The
returned flag records whether the `automadeTrades` call threw (that exception,
like a fetch failure, is caught by `.catch(errorHandler)`). -/
def initSymbol (store : Store) (rate : Option Rat) (symbol : String)
    (response : Option KlineResponse) : Store × Bool :=
  let store0 := setTrades store symbol []
  match fetchLatestTrades response with
  | Except.error _ => (store0, false)
  | Except.ok trades =>
    match trades with
    | [] => (store0, false)
    | _ :: _ =>
      let store1 := setTrades store0 symbol trades
      match trades.getLast? with
      | none => (store1, true)
      | some tl =>
        let store2 := setPrice store1 symbol tl.price
        match automadeTrades store2 rate symbol trades with
        | Except.ok s => (s, false)
        | Except.error s => (s, true)

/-- The adapter bootstrap (`Huobi.ts` lines 33-58, named `initialize` in the
source, renamed here) without the websocket connect call: bootstrap every
configured symbol (each failure caught independently), then set the liveness
flag. -/
def initializeHuobi (st : HuobiState) (rate : Option Rat)
    (responses : String → Option KlineResponse) : HuobiState :=
  let store := st.symbols.foldl (fun s sym => (initSymbol s rate sym (responses sym)).1) st.store
  { st with store := store, isUpdated := true }

/-- `update` (`Huobi.ts` lines 203-210), the liveness check: report and clear
the `isUpdated` flag. -/
def update (st : HuobiState) : HuobiState × Bool :=
  if st.isUpdated then ({ st with isUpdated := false }, true)
  else (st, false)

/-! ### Store lemmas -/

theorem getTrades_setTrades_self (s : Store) (k : String) (w : List Trade) :
    getTrades (setTrades s k w) k = some w := by
  simp [getTrades, setTrades]

theorem getTrades_setTrades_ne (s : Store) (k k' : String) (w : List Trade)
    (h : k' ≠ k) : getTrades (setTrades s k w) k' = getTrades s k' := by
  simp only [getTrades, setTrades]
  rw [List.find?_cons_of_neg _ (by simpa using Ne.symm h)]

theorem getTrades_setPrice (s : Store) (k k' : String) (p : Rat) :
    getTrades (setPrice s k p) k' = getTrades s k' := rfl

theorem getPrice_setPrice_self (s : Store) (k : String) (p : Rat) :
    getPrice (setPrice s k p) k = some p := by
  simp [getPrice, setPrice]

theorem getPrice_setPrice_ne (s : Store) (k k' : String) (p : Rat)
    (h : k' ≠ k) : getPrice (setPrice s k p) k' = getPrice s k' := by
  simp only [getPrice, setPrice]
  rw [List.find?_cons_of_neg _ (by simpa using Ne.symm h)]

theorem getPrice_setTrades (s : Store) (k k' : String) (w : List Trade) :
    getPrice (setTrades s k w) k' = getPrice s k' := rfl

/-! ### Symbol-string lemmas: the derived key `base/KRW` differs from a
`.../USDT` source key -/

theorem dropWhile_takeWhile_append (p : Char → Bool) (l r : List Char) :
    List.dropWhile p (List.takeWhile p l ++ r) = List.dropWhile p r := by
  induction l with
  | nil => rfl
  | cons c cs ih =>
    by_cases h : p c
    · simp [List.takeWhile_cons, h, List.dropWhile_cons, ih]
    · simp [List.takeWhile_cons, h]

theorem getQuoteCurrency_base_KRW (symbol : String) :
    getQuoteCurrency (getBaseCurrency symbol ++ "/KRW") = "KRW" := by
  cases symbol with
  | mk data =>
    show getQuoteCurrency (String.mk (data.takeWhile (fun c => c != '/')) ++ "/KRW") = "KRW"
    have hdt : (String.mk (data.takeWhile (fun c => c != '/')) ++ "/KRW").data
        = data.takeWhile (fun c => c != '/') ++ "/KRW".data := rfl
    unfold getQuoteCurrency
    rw [hdt, dropWhile_takeWhile_append]
    rfl

theorem base_KRW_ne_symbol (symbol : String) (h : getQuoteCurrency symbol = "USDT") :
    getBaseCurrency symbol ++ "/KRW" ≠ symbol := by
  intro he
  have hk : getQuoteCurrency (getBaseCurrency symbol ++ "/KRW") = "USDT" := by rw [he, h]
  rw [getQuoteCurrency_base_KRW] at hk
  exact absurd hk (by decide)

/-! ### `automadeTrades` lemmas -/

theorem automade_preserves_symbol (store : Store) (rate : Option Rat) (symbol : String)
    (trades : List Trade) (s : Store)
    (hs : automadeTrades store rate symbol trades = Except.ok s ∨
          automadeTrades store rate symbol trades = Except.error s) :
    getTrades s symbol = getTrades store symbol ∧ getPrice s symbol = getPrice store symbol := by
  cases rate with
  | none =>
    simp only [automadeTrades] at hs
    rcases hs with hs | hs
    · cases hs; exact ⟨rfl, rfl⟩
    · exact absurd hs (by simp)
  | some r =>
    simp only [automadeTrades] at hs
    by_cases hcond : getQuoteCurrency symbol ≠ "USDT" ∨ r = 0
    · rw [if_pos hcond] at hs
      rcases hs with hs | hs
      · cases hs; exact ⟨rfl, rfl⟩
      · exact absurd hs (by simp)
    · rw [if_neg hcond] at hs
      push_neg at hcond
      have hne : symbol ≠ getBaseCurrency symbol ++ "/KRW" :=
        fun he => base_KRW_ne_symbol symbol hcond.1 he.symm
      set conv := getBaseCurrency symbol ++ "/KRW" with hconv
      set calc2 := trades.map (fun trade =>
        { timestamp := trade.timestamp, price := trade.price / r, volume := trade.volume : Trade })
        with hcalc
      rcases hgl : calc2.getLast? with _ | t
      · rw [hgl] at hs
        rcases hs with hs | hs
        · exact absurd hs (by simp)
        · cases hs
          exact ⟨getTrades_setTrades_ne store conv symbol calc2 hne,
            getPrice_setTrades store conv symbol calc2⟩
      · rw [hgl] at hs
        rcases hs with hs | hs
        · cases hs
          constructor
          · rw [getTrades_setPrice, getTrades_setTrades_ne store conv symbol calc2 hne]
          · rw [getPrice_setPrice_ne _ _ _ _ hne, getPrice_setTrades]
        · exact absurd hs (by simp)

theorem getLast?_some_of_ne_nil {l : List Trade} (h : l ≠ []) :
    ∃ x, l.getLast? = some x := by
  have := List.getLast?_isSome.mpr h
  rcases hgl : l.getLast? with _ | x
  · rw [hgl] at this; simp at this
  · exact ⟨x, rfl⟩

theorem automade_ok_of_ne_nil (store : Store) (rate : Option Rat) (symbol : String)
    (trades : List Trade) (h : trades ≠ []) :
    ∃ s, automadeTrades store rate symbol trades = Except.ok s := by
  cases rate with
  | none => exact ⟨store, rfl⟩
  | some r =>
    simp only [automadeTrades]
    by_cases hcond : getQuoteCurrency symbol ≠ "USDT" ∨ r = 0
    · rw [if_pos hcond]; exact ⟨store, rfl⟩
    · rw [if_neg hcond]
      have hmapne : trades.map (fun trade =>
          { timestamp := trade.timestamp, price := trade.price / r, volume := trade.volume : Trade })
          ≠ [] := by
        simpa using h
      obtain ⟨t, ht⟩ := getLast?_some_of_ne_nil hmapne
      rw [ht]
      exact ⟨_, rfl⟩

/-! ### `updateFirst` / `mergeTrade` lemmas -/

theorem updateFirst_map_timestamp (ts : Int) (p v : Rat) (w : List Trade) :
    (updateFirst ts p v w).map Trade.timestamp = w.map Trade.timestamp := by
  induction w with
  | nil => rfl
  | cons t rest ih =>
    by_cases h : t.timestamp = ts
    · simp [updateFirst, h]
    · simp [updateFirst, h, ih]

theorem updateFirst_length (ts : Int) (p v : Rat) (w : List Trade) :
    (updateFirst ts p v w).length = w.length := by
  have := congrArg List.length (updateFirst_map_timestamp ts p v w)
  simpa using this

theorem filter_ts_eq_nil (w : List Trade) (ts : Int)
    (h : ∀ t ∈ w, t.timestamp ≠ ts) :
    w.filter (fun t => t.timestamp == ts) = [] := by
  rw [List.filter_eq_nil_iff]
  intro t ht
  simpa using h t ht

theorem updateFirst_filter (ts : Int) (p v : Rat) (w : List Trade)
    (hnd : (w.map Trade.timestamp).Nodup) (hex : ∃ t ∈ w, t.timestamp = ts) :
    (updateFirst ts p v w).filter (fun t => t.timestamp == ts)
      = [{ timestamp := ts, price := p, volume := v }] := by
  induction w with
  | nil => simp at hex
  | cons t rest ih =>
    simp only [List.map_cons, List.nodup_cons] at hnd
    by_cases h : t.timestamp = ts
    · simp only [updateFirst, h, if_true]
      rw [List.filter_cons_of_pos (by simp [h])]
      have hrest : rest.filter (fun x => x.timestamp == ts) = [] := by
        apply filter_ts_eq_nil
        intro u hu hts
        apply hnd.1
        rw [h, ← hts]
        exact List.mem_map_of_mem Trade.timestamp hu
      rw [hrest]
    · simp only [updateFirst, h, if_false]
      rw [List.filter_cons_of_neg (by simp [h])]
      apply ih hnd.2
      rcases hex with ⟨u, hu, hts⟩
      rcases List.mem_cons.mp hu with hu1 | hu1
      · exact absurd (hu1 ▸ hts) h
      · exact ⟨u, hu1, hts⟩

theorem mergeTrade_eq_updateFirst (w : List Trade) (ts : Int) (p v : Rat)
    (hex : ∃ t ∈ w, t.timestamp = ts) :
    mergeTrade w ts p v = updateFirst ts p v w := by
  unfold mergeTrade
  split
  · rfl
  · rename_i hf
    exfalso
    rcases hex with ⟨u, hu, hts⟩
    have := List.find?_eq_none.mp hf u hu
    simp [hts] at this

theorem mergeTrade_eq_append (w : List Trade) (ts : Int) (p v : Rat)
    (hall : ∀ t ∈ w, t.timestamp ≠ ts) :
    mergeTrade w ts p v = w ++ [{ timestamp := ts, price := p, volume := v }] := by
  unfold mergeTrade
  split
  · rename_i u hf
    have hu := List.mem_of_find?_eq_some hf
    have hts := List.find?_some hf
    simp only [beq_iff_eq] at hts
    exact absurd hts (hall u hu)
  · rfl

theorem mergeTrade_length_of_mem (w : List Trade) (ts : Int) (p v : Rat)
    (hex : ∃ t ∈ w, t.timestamp = ts) :
    (mergeTrade w ts p v).length = w.length := by
  rw [mergeTrade_eq_updateFirst w ts p v hex, updateFirst_length]

theorem mergeTrade_length_le (w : List Trade) (ts : Int) (p v : Rat) :
    (mergeTrade w ts p v).length ≤ w.length + 1 := by
  unfold mergeTrade
  split
  · rw [updateFirst_length]; omega
  · simp

theorem mergeTrade_filter (w : List Trade) (ts : Int) (p v : Rat)
    (hnd : (w.map Trade.timestamp).Nodup) :
    (mergeTrade w ts p v).filter (fun t => t.timestamp == ts)
      = [{ timestamp := ts, price := p, volume := v }] := by
  unfold mergeTrade
  split
  · rename_i u hf
    have hu := List.mem_of_find?_eq_some hf
    have hts := List.find?_some hf
    simp only [beq_iff_eq] at hts
    exact updateFirst_filter ts p v w hnd ⟨u, hu, hts⟩
  · rename_i hf
    rw [List.filter_append, filter_ts_eq_nil w ts (fun t ht => by
      have := List.find?_eq_none.mp hf t ht
      simpa using this)]
    simp

theorem mergeTrade_map_timestamp_of_mem (w : List Trade) (ts : Int) (p v : Rat)
    (hex : ∃ t ∈ w, t.timestamp = ts) :
    (mergeTrade w ts p v).map Trade.timestamp = w.map Trade.timestamp := by
  rw [mergeTrade_eq_updateFirst w ts p v hex, updateFirst_map_timestamp]

theorem mergeTrade_nodup (w : List Trade) (ts : Int) (p v : Rat)
    (hnd : (w.map Trade.timestamp).Nodup) :
    ((mergeTrade w ts p v).map Trade.timestamp).Nodup := by
  unfold mergeTrade
  split
  · rename_i u hf
    rw [updateFirst_map_timestamp]
    exact hnd
  · rename_i hf
    have hall : ∀ t ∈ w, t.timestamp ≠ ts := fun t ht => by
      have := List.find?_eq_none.mp hf t ht
      simpa using this
    rw [List.map_append]
    simp only [List.map_cons, List.map_nil]
    rw [List.nodup_append]
    refine ⟨hnd, by simp, ?_⟩
    intro a ha hb
    simp only [List.mem_singleton] at hb
    subst hb
    rcases List.mem_map.mp ha with ⟨t, ht, hts2⟩
    exact hall t ht hts2

theorem mergeTrade_ne_nil (w : List Trade) (ts : Int) (p v : Rat) :
    mergeTrade w ts p v ≠ [] := by
  unfold mergeTrade
  split
  · rename_i u hf
    cases w with
    | nil => simp at hf
    | cons t rest =>
      simp only [updateFirst]
      by_cases h : t.timestamp = ts <;> simp [h]
  · simp

theorem mergeTrade_sorted (w : List Trade) (ts : Int) (p v : Rat)
    (hs : (w.map Trade.timestamp).Pairwise (· ≤ ·))
    (hmax : ∀ t ∈ w, t.timestamp ≤ ts) :
    ((mergeTrade w ts p v).map Trade.timestamp).Pairwise (· ≤ ·) := by
  unfold mergeTrade
  split
  · rename_i u hf
    rw [updateFirst_map_timestamp]
    exact hs
  · rename_i hf
    rw [List.map_append]
    rw [List.pairwise_append]
    refine ⟨hs, by simp, ?_⟩
    intro a ha b hb
    simp only [List.map_cons, List.map_nil, List.mem_singleton] at hb
    subst hb
    rcases List.mem_map.mp ha with ⟨t, ht, rfl⟩
    exact hmax t ht

/-! ### Sorting lemmas for `sortTrades` -/

theorem insertTrade_perm (t : Trade) (l : List Trade) :
    List.Perm (insertTrade t l) (t :: l) := by
  induction l with
  | nil => exact List.Perm.refl _
  | cons u us ih =>
    simp only [insertTrade]
    by_cases h : t.timestamp < u.timestamp
    · rw [if_pos h]
    · rw [if_neg h]
      exact (List.Perm.cons u ih).trans (List.Perm.swap t u us)

theorem sortTrades_aux_perm :
    ∀ (l acc : List Trade), List.Perm (l.foldl (fun a t => insertTrade t a) acc) (acc ++ l) := by
  intro l
  induction l with
  | nil => intro acc; simp
  | cons t rest ih =>
    intro acc
    show List.Perm (rest.foldl (fun a t => insertTrade t a) (insertTrade t acc)) (acc ++ t :: rest)
    refine (ih (insertTrade t acc)).trans ?_
    refine ((insertTrade_perm t acc).append_right rest).trans ?_
    exact List.perm_middle.symm

theorem sortTrades_perm (l : List Trade) : List.Perm (sortTrades l) l := by
  simpa using sortTrades_aux_perm l []

theorem insertTrade_sorted (t : Trade) (l : List Trade)
    (h : l.Pairwise (fun a b => a.timestamp ≤ b.timestamp)) :
    (insertTrade t l).Pairwise (fun a b => a.timestamp ≤ b.timestamp) := by
  induction l with
  | nil => simp [insertTrade]
  | cons u us ih =>
    rcases List.pairwise_cons.mp h with ⟨hu, hus⟩
    simp only [insertTrade]
    by_cases hlt : t.timestamp < u.timestamp
    · rw [if_pos hlt]
      refine List.pairwise_cons.mpr ⟨?_, h⟩
      intro b hb
      rcases List.mem_cons.mp hb with hb1 | hb1
      · exact hb1 ▸ le_of_lt hlt
      · exact le_trans (le_of_lt hlt) (hu b hb1)
    · rw [if_neg hlt]
      have hut : u.timestamp ≤ t.timestamp := le_of_not_lt hlt
      refine List.pairwise_cons.mpr ⟨?_, ih hus⟩
      intro b hb
      have hb2 : b ∈ t :: us := (insertTrade_perm t us).mem_iff.mp hb
      rcases List.mem_cons.mp hb2 with hb1 | hb1
      · exact hb1 ▸ hut
      · exact hu b hb1

theorem sortTrades_aux_sorted :
    ∀ (l acc : List Trade), acc.Pairwise (fun a b => a.timestamp ≤ b.timestamp) →
      (l.foldl (fun a t => insertTrade t a) acc).Pairwise (fun a b => a.timestamp ≤ b.timestamp) := by
  intro l
  induction l with
  | nil => intro acc h; simpa using h
  | cons t rest ih =>
    intro acc h
    exact ih (insertTrade t acc) (insertTrade_sorted t acc h)

theorem sortTrades_sorted (l : List Trade) :
    (sortTrades l).Pairwise (fun a b => a.timestamp ≤ b.timestamp) :=
  sortTrades_aux_sorted l [] (by simp)

/-! ### `fetchLatestTrades` and `initSymbol` lemmas -/

theorem fetchLatestTrades_ok (resp : KlineResponse) (rows : List Candle)
    (hstat : resp.status = "ok") (hdata : resp.data = some rows) (hne : rows ≠ []) :
    fetchLatestTrades (some resp) =
      Except.ok (sortTrades ((rows.filter (fun row => 0 < row.vol)).map candleToTrade)) := by
  rcases resp with ⟨status, data⟩
  simp only at hstat hdata
  subst hstat
  subst hdata
  simp only [fetchLatestTrades]
  rw [if_neg (by simp)]
  rw [if_neg (by have := List.length_pos.mpr hne; omega)]

theorem initSymbol_store_of_trades (store : Store) (rate : Option Rat) (symbol : String)
    (response : Option KlineResponse) (l : List Trade) (tl : Trade)
    (hf : fetchLatestTrades response = Except.ok l)
    (hne : l ≠ [])
    (hlast : l.getLast? = some tl) :
    getTrades (initSymbol store rate symbol response).1 symbol = some l ∧
      getPrice (initSymbol store rate symbol response).1 symbol = some tl.price := by
  unfold initSymbol
  rw [hf]
  cases l with
  | nil => exact absurd rfl hne
  | cons t rest =>
    dsimp only
    rw [hlast]
    dsimp only
    have hok := automade_ok_of_ne_nil (setPrice (setTrades (setTrades store symbol []) symbol
      (t :: rest)) symbol tl.price) rate symbol (t :: rest) (by simp)
    rcases hok with ⟨s, hs⟩
    rw [hs]
    dsimp only
    have hpres := automade_preserves_symbol _ rate symbol (t :: rest) s (Or.inl hs)
    constructor
    · rw [hpres.1, getTrades_setPrice, getTrades_setTrades_self]
    · rw [hpres.2, getPrice_setPrice_self]

/-! ### `onData` market-path lemmas -/

theorem onData_market_eq (st : HuobiState) (rate : Option Rat) (msg : StreamMsg)
    (tk : Tick) (symbol : String)
    (hping : pingTruthy msg = false)
    (hsub : subbedTruthy msg = false)
    (hch : chMarket msg = true)
    (hfind : st.symbols.find? (fun s => replaceFirst s "/" "" == chanOf (msg.ch.getD ""))
      = some symbol)
    (htick : msg.tick = some tk) :
    onData st rate msg =
      (match automadeTrades (setPrice (setTrades st.store symbol
          (mergeTrade ((getTrades st.store symbol).getD []) (tk.id * 1000)
            (num tk.close) (num tk.amount)))
          symbol (num tk.close)) rate symbol
          (mergeTrade ((getTrades st.store symbol).getD []) (tk.id * 1000)
            (num tk.close) (num tk.amount)) with
       | Except.ok s => ({ st with store := s, isUpdated := true }, DataOutcome.updated)
       | Except.error s => ({ st with store := s }, DataOutcome.threwAutomade)) := by
  simp only [onData, hping, hsub, hch, Bool.false_eq_true, if_false, if_true, hfind, htick]

theorem onData_market_window (st : HuobiState) (rate : Option Rat) (msg : StreamMsg)
    (tk : Tick) (symbol : String)
    (hping : pingTruthy msg = false)
    (hsub : subbedTruthy msg = false)
    (hch : chMarket msg = true)
    (hfind : st.symbols.find? (fun s => replaceFirst s "/" "" == chanOf (msg.ch.getD ""))
      = some symbol)
    (htick : msg.tick = some tk) :
    ((onData st rate msg).1).symbols = st.symbols ∧
    getTrades ((onData st rate msg).1).store symbol =
      some (mergeTrade ((getTrades st.store symbol).getD []) (tk.id * 1000)
        (num tk.close) (num tk.amount)) := by
  have heq := onData_market_eq st rate msg tk symbol hping hsub hch hfind htick
  rw [heq]
  set w1 := mergeTrade ((getTrades st.store symbol).getD []) (tk.id * 1000)
    (num tk.close) (num tk.amount) with hw1
  set store1 := setPrice (setTrades st.store symbol w1) symbol (num tk.close) with hstore1
  have hw1get : getTrades store1 symbol = some w1 := by
    rw [hstore1, getTrades_setPrice, getTrades_setTrades_self]
  rcases hca : automadeTrades store1 rate symbol w1 with s | s
  · have hpres := automade_preserves_symbol store1 rate symbol w1 s (Or.inr hca)
    exact ⟨rfl, by dsimp only; rw [hpres.1, hw1get]⟩
  · have hpres := automade_preserves_symbol store1 rate symbol w1 s (Or.inl hca)
    exact ⟨rfl, by dsimp only; rw [hpres.1, hw1get]⟩

theorem automade_mergeTrade_ne_error (store : Store) (rate : Option Rat) (symbol : String)
    (w : List Trade) (ts : Int) (p v : Rat) (s : Store) :
    automadeTrades store rate symbol (mergeTrade w ts p v) ≠ Except.error s := by
  intro h
  obtain ⟨s2, hs2⟩ := automade_ok_of_ne_nil store rate symbol _ (mergeTrade_ne_nil w ts p v)
  rw [hs2] at h
  simp at h

/-! ## The claims -/

/-- An empty shared store, used in concrete runs. -/
def emptyStore : Store := { tradesMap := [], pricesMap := [] }

/-- A fresh adapter state configured for `BTC/USDT`, used in concrete runs. -/
def emptyState : HuobiState := { symbols := ["BTC/USDT"], store := emptyStore, isUpdated := false }

/-- The all-absent decoded message, used in concrete runs. -/
def emptyMsg : StreamMsg := { ping := none, subbed := none, status := none, ch := none, tick := none }

/-- Claim C3: for every call to the synthesizer with an unavailable rate
(absent or zero) or a symbol whose quote currency is not USDT, `automadeTrades`
performs no write at all: it returns the shared store exactly as it received
it, so the derived symbol's trade window and latest price are completely
unchanged. -/
theorem claim_c3_synthesis_gating (store : Store) (rate : Option Rat) (symbol : String)
    (trades : List Trade)
    (h : rate = none ∨ rate = some 0 ∨ getQuoteCurrency symbol ≠ "USDT") :
    automadeTrades store rate symbol trades = Except.ok store := by
  rcases h with rfl | rfl | h
  · rfl
  · simp [automadeTrades]
  · cases rate with
    | none => rfl
    | some r =>
      simp only [automadeTrades]
      rw [if_pos (Or.inl h)]

/-- Witness for C3: with no rate available, a `BTC/USDT` call leaves the empty
store untouched. -/
theorem claim_c3_witness :
    ((none : Option Rat) = none ∨ (none : Option Rat) = some 0 ∨
        getQuoteCurrency "BTC/USDT" ≠ "USDT") ∧
    automadeTrades emptyStore none "BTC/USDT"
        [{ timestamp := 60000, price := 50000, volume := 2 }] = Except.ok emptyStore :=
  ⟨Or.inl rfl,
    claim_c3_synthesis_gating emptyStore none "BTC/USDT"
      [{ timestamp := 60000, price := 50000, volume := 2 }] (Or.inl rfl)⟩

/-- Claim C2: for a symbol with quote currency USDT and an available (nonzero)
rate, the synthesizer writes under the derived key base/KRW exactly the source
trades with price divided by the rate and volume and timestamp unchanged (a
list of the same length, fully replacing any prior derived window), and sets
the derived latest price to the last derived trade's price. -/
theorem claim_c2_synthesis_correct (store : Store) (symbol : String) (r : Rat)
    (trades : List Trade)
    (hq : getQuoteCurrency symbol = "USDT") (hr : r ≠ 0) (hne : trades ≠ []) :
    ∃ s, automadeTrades store (some r) symbol trades = Except.ok s ∧
      getTrades s (getBaseCurrency symbol ++ "/KRW") =
        some (trades.map (fun t =>
          { timestamp := t.timestamp, price := t.price / r, volume := t.volume })) ∧
      (trades.map (fun t =>
          { timestamp := t.timestamp, price := t.price / r, volume := t.volume : Trade })).length
        = trades.length ∧
      ∃ tl, (trades.map (fun t =>
          { timestamp := t.timestamp, price := t.price / r, volume := t.volume : Trade })).getLast?
          = some tl ∧
        getPrice s (getBaseCurrency symbol ++ "/KRW") = some tl.price := by
  have hcne : trades.map (fun t =>
      { timestamp := t.timestamp, price := t.price / r, volume := t.volume : Trade }) ≠ [] := by
    simpa using hne
  obtain ⟨tl, htl⟩ := getLast?_some_of_ne_nil hcne
  refine ⟨setPrice (setTrades store (getBaseCurrency symbol ++ "/KRW")
      (trades.map (fun t =>
        { timestamp := t.timestamp, price := t.price / r, volume := t.volume })))
      (getBaseCurrency symbol ++ "/KRW") tl.price, ?_, ?_, by simp, tl, htl, ?_⟩
  · simp only [automadeTrades]
    rw [if_neg (by push_neg; exact ⟨hq, hr⟩)]
    rw [htl]
  · rw [getTrades_setPrice, getTrades_setTrades_self]
  · rw [getPrice_setPrice_self]

/-- Witness for C2: rate 1300 and one `BTC/USDT` trade at price 50000. -/
theorem claim_c2_witness :
    (getQuoteCurrency "BTC/USDT" = "USDT" ∧ (1300 : Rat) ≠ 0 ∧
      ([{ timestamp := 60000, price := 50000, volume := 2 }] : List Trade) ≠ []) ∧
    (∃ s, automadeTrades emptyStore (some 1300) "BTC/USDT"
        [{ timestamp := 60000, price := 50000, volume := 2 }] = Except.ok s ∧
      getTrades s (getBaseCurrency "BTC/USDT" ++ "/KRW") =
        some (([{ timestamp := 60000, price := 50000, volume := 2 }] : List Trade).map (fun t =>
          { timestamp := t.timestamp, price := t.price / 1300, volume := t.volume })) ∧
      (([{ timestamp := 60000, price := 50000, volume := 2 }] : List Trade).map (fun t =>
          { timestamp := t.timestamp, price := t.price / 1300, volume := t.volume : Trade })).length
        = ([{ timestamp := 60000, price := 50000, volume := 2 }] : List Trade).length ∧
      ∃ tl, (([{ timestamp := 60000, price := 50000, volume := 2 }] : List Trade).map (fun t =>
          { timestamp := t.timestamp, price := t.price / 1300, volume := t.volume : Trade })).getLast?
          = some tl ∧
        getPrice s (getBaseCurrency "BTC/USDT" ++ "/KRW") = some tl.price) :=
  ⟨⟨by decide, by norm_num, by simp⟩,
    claim_c2_synthesis_correct emptyStore "BTC/USDT" 1300
      [{ timestamp := 60000, price := 50000, volume := 2 }] (by decide) (by norm_num) (by simp)⟩

/-- Claim C9: a decoded message that is neither a (truthy) ping, nor a
subscription acknowledgement, nor a market-data message whose channel starts
with `market.`, makes `onData` raise the fatal protocol error of the final
`else` branch (`throw new Error(streamData)`), and no trade window, price or
flag is mutated: the state is returned unchanged. -/
theorem claim_c9_unknown_message_fatal (st : HuobiState) (rate : Option Rat) (msg : StreamMsg)
    (hping : pingTruthy msg = false)
    (hsub : subbedTruthy msg = false)
    (hch : chMarket msg = false) :
    onData st rate msg = (st, DataOutcome.threwUnknown) := by
  simp [onData, hping, hsub, hch]

/-- Witness for C9: the empty message matches no category and is fatal. -/
theorem claim_c9_witness :
    (pingTruthy emptyMsg = false ∧ subbedTruthy emptyMsg = false ∧ chMarket emptyMsg = false) ∧
    onData emptyState none emptyMsg = (emptyState, DataOutcome.threwUnknown) :=
  ⟨⟨rfl, rfl, rfl⟩, claim_c9_unknown_message_fatal emptyState none emptyMsg rfl rfl rfl⟩

/-- Claim C6: the liveness check `update` returns true and clears the flag if
it is set, returns false if it is not, and therefore reports true exactly once
per accepted update: after one check every further check returns false until
the flag is set again; the bootstrap (`initialize`) sets the flag. -/
theorem claim_c6_liveness (st : HuobiState) :
    ((update st).2 = st.isUpdated) ∧
    (((update st).1).isUpdated = false) ∧
    (∀ n : Nat, (update ((fun s => (update s).1)^[n] ((update st).1))).2 = false) ∧
    (∀ (rate : Option Rat) (responses : String → Option KlineResponse),
      (initializeHuobi st rate responses).isUpdated = true) := by
  have hclear : ∀ s : HuobiState, ((update s).1).isUpdated = false := by
    intro s
    unfold update
    by_cases h : s.isUpdated <;> simp [h]
  refine ⟨?_, hclear st, ?_, ?_⟩
  · unfold update
    by_cases h : st.isUpdated <;> simp [h]
  · intro n
    have key : ∀ (s : HuobiState), s.isUpdated = false →
        (((fun s => (update s).1)^[n]) s).isUpdated = false := by
      induction n with
      | zero => intro s h; simpa using h
      | succ m ih =>
        intro s h
        rw [Function.iterate_succ_apply]
        exact ih _ (hclear s)
    have h2 := key _ (hclear st)
    have hfalse : ∀ s : HuobiState, s.isUpdated = false → (update s).2 = false := by
      intro s h
      unfold update
      simp [h]
    exact hfalse _ h2
  · intro rate responses
    rfl

/-- An adapter state whose liveness flag is set, used in concrete runs. -/
def liveState : HuobiState := { symbols := ["BTC/USDT"], store := emptyStore, isUpdated := true }

/-- Witness for C6: on a state with the flag set, the check reports the flag. -/
theorem claim_c6_witness :
    (update liveState).2 = liveState.isUpdated ∧ ((update liveState).1).isUpdated = false :=
  ⟨(claim_c6_liveness liveState).1, (claim_c6_liveness liveState).2.1⟩

/-- Claim C10: every call of `automadeTrades` receives a non-empty trade list,
so the read of the last derived trade is always well-defined: `onData` never
ends in the `threwAutomade` outcome, the bootstrap step never records an
`automadeTrades` crash, and the merged window `onData` passes is never
empty. -/
theorem claim_c10_automade_always_fed :
    (∀ (st : HuobiState) (rate : Option Rat) (msg : StreamMsg),
      (onData st rate msg).2 ≠ DataOutcome.threwAutomade) ∧
    (∀ (store : Store) (rate : Option Rat) (symbol : String)
        (response : Option KlineResponse),
      (initSymbol store rate symbol response).2 = false) ∧
    (∀ (w : List Trade) (ts : Int) (p v : Rat), mergeTrade w ts p v ≠ []) := by
  refine ⟨?_, ?_, mergeTrade_ne_nil⟩
  · intro st rate msg
    by_cases hping : pingTruthy msg = true
    · simp [onData, hping]
    · rw [Bool.not_eq_true] at hping
      by_cases hsub : subbedTruthy msg = true
      · by_cases hst : msg.status ≠ some "ok" <;> simp [onData, hping, hsub, hst]
      · rw [Bool.not_eq_true] at hsub
        by_cases hch : chMarket msg = true
        · rcases hfind : st.symbols.find?
              (fun s => replaceFirst s "/" "" == chanOf (msg.ch.getD "")) with _ | symbol
          · simp [onData, hping, hsub, hch, hfind]
          · rcases htick : msg.tick with _ | tk
            · simp [onData, hping, hsub, hch, hfind, htick]
            · rw [onData_market_eq st rate msg tk symbol hping hsub hch hfind htick]
              rcases hca : automadeTrades (setPrice (setTrades st.store symbol
                  (mergeTrade ((getTrades st.store symbol).getD []) (tk.id * 1000)
                    (num tk.close) (num tk.amount)))
                  symbol (num tk.close)) rate symbol
                  (mergeTrade ((getTrades st.store symbol).getD []) (tk.id * 1000)
                    (num tk.close) (num tk.amount)) with s | s
              · exact absurd hca (automade_mergeTrade_ne_error _ _ _ _ _ _ _ _)
              · simp
        · rw [Bool.not_eq_true] at hch
          simp [onData, hping, hsub, hch]
  · intro store rate symbol response
    unfold initSymbol
    split
    · rfl
    · split
      · rfl
      · rename_i thead ttail hfeq
        split
        · rename_i hgl
          exfalso
          obtain ⟨x, hx⟩ := getLast?_some_of_ne_nil (List.cons_ne_nil thead ttail)
          rw [hx] at hgl
          simp at hgl
        · rename_i tl hgl
          dsimp only
          split
          · rfl
          · rename_i s hca
            exfalso
            obtain ⟨s2, hs2⟩ :=
              automade_ok_of_ne_nil _ rate symbol _ (List.cons_ne_nil thead ttail)
            rw [hs2] at hca
            simp at hca

/-- Witness for C10: a concrete call never ends in the automade crash outcome. -/
theorem claim_c10_witness :
    (onData emptyState none emptyMsg).2 ≠ DataOutcome.threwAutomade :=
  claim_c10_automade_always_fed.1 emptyState none emptyMsg

/-- Counterexample for C4: a frame whose decompression fails is handled by the
source *outside* the `try`/`catch` (`pako.inflate` runs on line 93, before the
`try` of lines 95-99), so the exception escapes `onRawData` instead of being
reported and dropped, contradicting the claim that decompression failures are
handled locally. -/
theorem claim_c4_counterexample :
    onRawData emptyState none FrameDecode.inflateError = (emptyState, RawOutcome.escaped) ∧
    RawOutcome.escaped ≠ RawOutcome.caught :=
  ⟨rfl, by decide⟩

/-- Claim C4 as amended: only a failure to parse the decompressed text (or any
error thrown while handling the parsed message) is handled locally — the error
is reported through the error channel, the frame dropped, and the call
returns — whereas a decompression failure escapes `onRawData` because
`pako.inflate` runs before the `try`. -/
theorem claim_c4_amended (st : HuobiState) (rate : Option Rat) (frame : FrameDecode)
    (h : frame ≠ FrameDecode.inflateError) :
    ((onRawData st rate frame).2 ≠ RawOutcome.escaped) ∧
    (∀ text, frame = FrameDecode.parseError text →
      onRawData st rate frame = (st, RawOutcome.caught)) := by
  cases frame with
  | inflateError => exact absurd rfl h
  | parseError t =>
    refine ⟨by simp [onRawData], ?_⟩
    intro text ht
    rfl
  | parsed msg =>
    refine ⟨?_, ?_⟩
    · unfold onRawData
      dsimp only
      split <;> simp
    · intro text ht
      cases ht

/-- Witness for C4 (amended): a parse failure is caught, the state untouched. -/
theorem claim_c4_witness :
    (FrameDecode.parseError "not json" ≠ FrameDecode.inflateError) ∧
    ((onRawData emptyState none (FrameDecode.parseError "not json")).2 ≠ RawOutcome.escaped) :=
  ⟨by decide,
    (claim_c4_amended emptyState none (FrameDecode.parseError "not json") (by decide)).1⟩

/-- Claim C1: for a market tick handled by `onData` for a configured symbol,
the tick is merged into the symbol's window at timestamp id·1000: if an entry
with that timestamp exists, its price and volume are replaced in place and no
entry is added (`updateFirst`, same length); otherwise a new trade is
appended; and feeding the same payload twice leaves exactly one window entry
with that timestamp, holding the (second) call's price and volume. -/
theorem claim_c1_idempotent_merge (st : HuobiState) (rate : Option Rat) (msg : StreamMsg)
    (tk : Tick) (symbol : String) (w : List Trade) (ts : Int) (p v : Rat)
    (hping : pingTruthy msg = false)
    (hsub : subbedTruthy msg = false)
    (hch : chMarket msg = true)
    (hfind : st.symbols.find? (fun s => replaceFirst s "/" "" == chanOf (msg.ch.getD ""))
      = some symbol)
    (htick : msg.tick = some tk)
    (hw : w = (getTrades st.store symbol).getD [])
    (hts : ts = tk.id * 1000) (hp : p = num tk.close) (hv : v = num tk.amount)
    (hnd : (w.map Trade.timestamp).Nodup) :
    getTrades ((onData st rate msg).1).store symbol = some (mergeTrade w ts p v) ∧
    ((∃ t ∈ w, t.timestamp = ts) →
      mergeTrade w ts p v = updateFirst ts p v w ∧ (mergeTrade w ts p v).length = w.length) ∧
    ((∀ t ∈ w, t.timestamp ≠ ts) →
      mergeTrade w ts p v = w ++ [{ timestamp := ts, price := p, volume := v }]) ∧
    ((mergeTrade w ts p v).filter (fun t => t.timestamp == ts)
      = [{ timestamp := ts, price := p, volume := v }]) ∧
    (((getTrades ((onData ((onData st rate msg).1) rate msg).1).store symbol).getD []).filter
      (fun t => t.timestamp == ts) = [{ timestamp := ts, price := p, volume := v }]) := by
  subst hw hts hp hv
  have h1 := onData_market_window st rate msg tk symbol hping hsub hch hfind htick
  refine ⟨h1.2,
    fun hex => ⟨mergeTrade_eq_updateFirst _ _ _ _ hex, mergeTrade_length_of_mem _ _ _ _ hex⟩,
    fun hall => mergeTrade_eq_append _ _ _ _ hall,
    mergeTrade_filter _ _ _ _ hnd, ?_⟩
  have hfind1 : ((onData st rate msg).1).symbols.find?
      (fun s => replaceFirst s "/" "" == chanOf (msg.ch.getD "")) = some symbol := by
    rw [h1.1]
    exact hfind
  have h2 := onData_market_window ((onData st rate msg).1) rate msg tk symbol
    hping hsub hch hfind1 htick
  have hnd1 := mergeTrade_nodup ((getTrades st.store symbol).getD []) (tk.id * 1000)
    (num tk.close) (num tk.amount) hnd
  rw [h2.2, h1.2]
  simp only [Option.getD_some]
  exact mergeTrade_filter _ _ _ _ hnd1

/-- A market tick message for `BTC/USDT`: bucket id 1, close 5, amount 2. -/
def c1Msg : StreamMsg :=
  { ping := none, subbed := none, status := none,
    ch := some "market.btcusdt.kline.1min", tick := some { id := 1, close := 5, amount := 2 } }

/-- Witness for C1: the tick is appended to the empty `BTC/USDT` window. -/
theorem claim_c1_witness :
    ((([] : List Trade).map Trade.timestamp).Nodup ∧ chMarket c1Msg = true) ∧
    getTrades ((onData emptyState none c1Msg).1).store "BTC/USDT" =
      some (mergeTrade [] 1000 (num 5) (num 2)) :=
  ⟨⟨by decide, by decide⟩,
    (claim_c1_idempotent_merge emptyState none c1Msg { id := 1, close := 5, amount := 2 }
      "BTC/USDT" [] 1000 (num 5) (num 2) rfl rfl (by decide) (by decide) rfl rfl
      (by decide) rfl rfl (by decide)).1⟩

/-- A market tick message for `BTC/USDT` with bucket id `i` and unit price and
volume, used in concrete runs. -/
def tickMsg (i : Int) : StreamMsg :=
  { ping := none, subbed := none, status := none,
    ch := some "market.btcusdt.kline.1min", tick := some { id := i, close := 1, amount := 1 } }

/-- The adapter state after eleven ticks with distinct bucket ids 0..10. -/
def elevenTicks : HuobiState :=
  (List.range 11).foldl (fun s i => (onData s none (tickMsg (Int.ofNat i))).1) emptyState

/-- Counterexample for C7: `onData` appends a window entry for every fresh
timestamp and nothing ever trims the window, so eleven ticks with distinct
bucket ids give a window of length 11, exceeding the bootstrap fetch size
`requestSize = 10`. -/
theorem claim_c7_counterexample :
    ((getTrades elevenTicks.store "BTC/USDT").getD []).length = 11 ∧
    ¬ ((getTrades elevenTicks.store "BTC/USDT").getD []).length ≤ requestSize :=
  ⟨by decide, by decide⟩

/-- Claim C7 as amended: the window is not bounded by the bootstrap fetch size;
what holds is that each accepted tick grows the symbol's window by at most one
entry (and not at all when the tick's timestamp is already present), and a
bootstrap write has at most as many trades as the response has candles. -/
theorem claim_c7_amended (st : HuobiState) (rate : Option Rat) (msg : StreamMsg)
    (tk : Tick) (symbol : String) (w : List Trade) (ts : Int) (p v : Rat)
    (hping : pingTruthy msg = false)
    (hsub : subbedTruthy msg = false)
    (hch : chMarket msg = true)
    (hfind : st.symbols.find? (fun s => replaceFirst s "/" "" == chanOf (msg.ch.getD ""))
      = some symbol)
    (htick : msg.tick = some tk)
    (hw : w = (getTrades st.store symbol).getD [])
    (hts : ts = tk.id * 1000) (hp : p = num tk.close) (hv : v = num tk.amount) :
    (getTrades ((onData st rate msg).1).store symbol = some (mergeTrade w ts p v)) ∧
    ((mergeTrade w ts p v).length ≤ w.length + 1) ∧
    ((∃ t ∈ w, t.timestamp = ts) → (mergeTrade w ts p v).length = w.length) ∧
    (∀ (resp : KlineResponse) (rows : List Candle) (l : List Trade),
      resp.status = "ok" → resp.data = some rows → rows ≠ [] →
      fetchLatestTrades (some resp) = Except.ok l → l.length ≤ rows.length) := by
  subst hw hts hp hv
  refine ⟨(onData_market_window st rate msg tk symbol hping hsub hch hfind htick).2,
    mergeTrade_length_le _ _ _ _,
    fun hex => mergeTrade_length_of_mem _ _ _ _ hex, ?_⟩
  intro resp rows l h1 h2 h3 h4
  rw [fetchLatestTrades_ok resp rows h1 h2 h3] at h4
  have hl : l = sortTrades ((rows.filter (fun row => 0 < row.vol)).map candleToTrade) := by
    cases h4
    rfl
  subst hl
  have hlen := (sortTrades_perm ((rows.filter (fun row => 0 < row.vol)).map candleToTrade)).length_eq
  rw [hlen, List.length_map]
  exact List.length_filter_le _ _

/-- Witness for C7 (amended): a tick on the empty window grows it to length at
most one. -/
theorem claim_c7_witness :
    (chMarket c1Msg = true) ∧
    (mergeTrade [] 1000 (num 5) (num 2)).length ≤ ([] : List Trade).length + 1 :=
  ⟨by decide,
    (claim_c7_amended emptyState none c1Msg { id := 1, close := 5, amount := 2 }
      "BTC/USDT" [] 1000 (num 5) (num 2) rfl rfl (by decide) (by decide) rfl rfl
      (by decide) rfl rfl).2.1⟩

/-- The adapter state after a tick for bucket 2 followed by a late tick for
bucket 1. -/
def outOfOrderTicks : HuobiState :=
  (onData ((onData emptyState none (tickMsg 2)).1) none (tickMsg 1)).1

/-- Counterexample for C8: a tick whose timestamp is smaller than an existing
entry's is appended at the end, so after ticks for buckets 2 then 1 the window
timestamps in insertion order are [2000, 1000] — not non-decreasing. -/
theorem claim_c8_counterexample :
    ((getTrades outOfOrderTicks.store "BTC/USDT").getD []).map Trade.timestamp = [2000, 1000] ∧
    ¬ (((getTrades outOfOrderTicks.store "BTC/USDT").getD []).map Trade.timestamp).Pairwise
        (· ≤ ·) := by
  have hmap : ((getTrades outOfOrderTicks.store "BTC/USDT").getD []).map Trade.timestamp
      = [2000, 1000] := by decide
  refine ⟨hmap, ?_⟩
  intro h
  rw [hmap] at h
  rcases List.pairwise_cons.mp h with ⟨h1, _⟩
  have := h1 1000 (by simp)
  omega

/-- Claim C8 as amended: ticks preserve timestamp distinctness unconditionally,
and preserve non-decreasing order when the tick's timestamp is already present
(in-place update) or is at least every existing timestamp (append at the end);
a bootstrap window is always sorted non-decreasing and has distinct timestamps
whenever the response's candle ids are distinct.  (Monotonicity fails for
out-of-order fresh ticks, which are appended at the end.) -/
theorem claim_c8_amended :
    (∀ (w : List Trade) (ts : Int) (p v : Rat), (w.map Trade.timestamp).Nodup →
      ((mergeTrade w ts p v).map Trade.timestamp).Nodup) ∧
    (∀ (w : List Trade) (ts : Int) (p v : Rat),
      (w.map Trade.timestamp).Pairwise (· ≤ ·) → (∀ t ∈ w, t.timestamp ≤ ts) →
      ((mergeTrade w ts p v).map Trade.timestamp).Pairwise (· ≤ ·)) ∧
    (∀ (w : List Trade) (ts : Int) (p v : Rat), (∃ t ∈ w, t.timestamp = ts) →
      (mergeTrade w ts p v).map Trade.timestamp = w.map Trade.timestamp) ∧
    (∀ (resp : KlineResponse) (rows : List Candle) (l : List Trade),
      resp.status = "ok" → resp.data = some rows → rows ≠ [] →
      fetchLatestTrades (some resp) = Except.ok l →
      (l.map Trade.timestamp).Pairwise (· ≤ ·) ∧
      ((rows.map Candle.id).Nodup → (l.map Trade.timestamp).Nodup)) := by
  refine ⟨mergeTrade_nodup, mergeTrade_sorted, mergeTrade_map_timestamp_of_mem, ?_⟩
  intro resp rows l h1 h2 h3 h4
  rw [fetchLatestTrades_ok resp rows h1 h2 h3] at h4
  have hl : l = sortTrades ((rows.filter (fun row => 0 < row.vol)).map candleToTrade) := by
    cases h4
    rfl
  subst hl
  constructor
  · rw [List.pairwise_map]
    exact sortTrades_sorted _
  · intro hids
    have hfsub : List.Sublist ((rows.filter (fun row => 0 < row.vol)).map Candle.id)
        (rows.map Candle.id) :=
      (List.filter_sublist rows).map Candle.id
    have hfnd : ((rows.filter (fun row => 0 < row.vol)).map Candle.id).Nodup :=
      List.Nodup.sublist hfsub hids
    have hinj : Function.Injective (fun i : Int => i * 1000) := by
      intro a b hab
      simp only at hab
      omega
    have hmapped : (((rows.filter (fun row => 0 < row.vol)).map candleToTrade).map
        Trade.timestamp).Nodup := by
      rw [List.map_map]
      have hcomp : (Trade.timestamp ∘ candleToTrade)
          = (fun i : Int => i * 1000) ∘ Candle.id := rfl
      rw [hcomp, ← List.map_map]
      exact List.Nodup.map hinj hfnd
    have hperm := (sortTrades_perm ((rows.filter (fun row => 0 < row.vol)).map
      candleToTrade)).map Trade.timestamp
    exact hperm.nodup_iff.mpr hmapped

/-- Witness for C8 (amended): merging into the empty window keeps timestamps
distinct. -/
theorem claim_c8_witness :
    (([] : List Trade).map Trade.timestamp).Nodup ∧
    ((mergeTrade [] 1000 (num 1) (num 1)).map Trade.timestamp).Nodup :=
  ⟨by decide, claim_c8_amended.1 [] 1000 (num 1) (num 1) (by decide)⟩

/-- The rows of a bootstrap response: one candle with negative `vol`. -/
def negVolCandle : Candle := { id := 100, close := 10, amount := -1, vol := -1 }

/-- A successful response whose only candle has non-zero (negative) `vol`. -/
def negVolResp : KlineResponse := { status := "ok", data := some [negVolCandle] }

/-- Counterexample for C5: the bootstrap filter keeps `parseFloat(row.vol) > 0`,
not `vol ≠ 0`, so a candle with non-zero (negative) `vol` is dropped: the
resulting window is empty although the response's only candle has non-zero
volume, refuting "contains exactly the candles with non-zero volume". -/
theorem claim_c5_counterexample :
    fetchLatestTrades (some negVolResp) = Except.ok [] ∧
    negVolCandle.vol ≠ 0 ∧ negVolCandle ∈ negVolResp.data.getD [] :=
  ⟨rfl, by decide, by decide⟩

/-- Claim C5 as amended: for every successful bootstrap response (status ok,
non-empty array), the initial window is exactly the candles with positive
`vol` (so a zero-volume candle never appears), mapped to trades with timestamp
id·1000, sorted ascending by timestamp; when the list is non-empty it is
stored as the symbol's window and the symbol's latest price is set to the last
trade's price. -/
theorem claim_c5_amended (resp : KlineResponse) (rows : List Candle)
    (hstat : resp.status = "ok") (hdata : resp.data = some rows) (hne : rows ≠ []) :
    ∃ l, fetchLatestTrades (some resp) = Except.ok l ∧
      List.Perm l ((rows.filter (fun row => 0 < row.vol)).map candleToTrade) ∧
      (l.map Trade.timestamp).Pairwise (· ≤ ·) ∧
      (∀ t ∈ l, ∃ row ∈ rows, 0 < row.vol ∧ t = candleToTrade row) ∧
      (l ≠ [] → ∀ (store : Store) (rate : Option Rat) (symbol : String),
        getTrades (initSymbol store rate symbol (some resp)).1 symbol = some l ∧
        ∃ tl, l.getLast? = some tl ∧
          getPrice (initSymbol store rate symbol (some resp)).1 symbol = some tl.price) := by
  refine ⟨sortTrades ((rows.filter (fun row => 0 < row.vol)).map candleToTrade),
    fetchLatestTrades_ok resp rows hstat hdata hne, sortTrades_perm _, ?_, ?_, ?_⟩
  · rw [List.pairwise_map]
    exact sortTrades_sorted _
  · intro t ht
    have hmem := (sortTrades_perm ((rows.filter (fun row => 0 < row.vol)).map
      candleToTrade)).mem_iff.mp ht
    rcases List.mem_map.mp hmem with ⟨row, hrow, rfl⟩
    rcases List.mem_filter.mp hrow with ⟨hr1, hr2⟩
    exact ⟨row, hr1, by simpa using hr2, rfl⟩
  · intro hlne store rate symbol
    obtain ⟨tl, htl⟩ := getLast?_some_of_ne_nil hlne
    have hinit := initSymbol_store_of_trades store rate symbol (some resp) _ tl
      (fetchLatestTrades_ok resp rows hstat hdata hne) hlne htl
    exact ⟨hinit.1, tl, htl, hinit.2⟩

/-- The rows of a well-formed bootstrap response: candles out of order, with
positive volumes (the spec §8 ordering example). -/
def goodRows : List Candle :=
  [{ id := 100, close := 10, amount := 5, vol := 5 },
   { id := 90, close := 9, amount := 3, vol := 3 }]

/-- A successful response holding `goodRows`. -/
def goodResp : KlineResponse := { status := "ok", data := some goodRows }

/-- Witness for C5 (amended): the out-of-order two-candle response. -/
theorem claim_c5_witness :
    (goodResp.status = "ok" ∧ goodResp.data = some goodRows ∧ goodRows ≠ []) ∧
    (∃ l, fetchLatestTrades (some goodResp) = Except.ok l ∧
      List.Perm l ((goodRows.filter (fun row => 0 < row.vol)).map candleToTrade) ∧
      (l.map Trade.timestamp).Pairwise (· ≤ ·) ∧
      (∀ t ∈ l, ∃ row ∈ goodRows, 0 < row.vol ∧ t = candleToTrade row) ∧
      (l ≠ [] → ∀ (store : Store) (rate : Option Rat) (symbol : String),
        getTrades (initSymbol store rate symbol (some goodResp)).1 symbol = some l ∧
        ∃ tl, l.getLast? = some tl ∧
          getPrice (initSymbol store rate symbol (some goodResp)).1 symbol = some tl.price)) :=
  ⟨⟨rfl, rfl, by decide⟩, claim_c5_amended goodResp goodRows rfl rfl (by decide)⟩

end Huobi
